import Mathlib

/-!
Shallow embedding of the conversation-extraction and preprocessing core of
the doppelganger repository, together with proofs settling the frozen
claims C1-C10.

Source files embedded:
* `src/research_case/processors/preprocess.py` (`DataPreprocessor`)
* `src/preprocess/preprocess.py` (`DataPreprocessor`, chunked revision)
* `src/research_case/processors/conversation_extraction.py`
  (`ConversationExtractor`)

Modelling conventions:
* pandas cells that may be NaN/None become `Option`.
* The external `langdetect.detect` call is a parameter
  `det : String → Except DetectErr String`; `Except.error .langDetectException`
  models `LangDetectException` (caught by the inner `try`), and
  `Except.error .otherError` models any other exception escaping to the
  outer `try` of the predicate.
* The external `emoji.EMOJI_DATA` character set is a parameter
  `emojiP : Char → Bool`; `emojiDataModel` below is a concrete
  instantiation used for concrete evaluations.
* Python `str.strip` / `\s` are modelled over their ASCII whitespace set,
  and the regex `\w` over ASCII alphanumerics plus underscore, which is
  faithful for the texts handled in this development.
* The SQLite `conversation_map` table is a `List ReplyRow` in rowid
  (insertion) order with `tweet_id` kept unique by `INSERT OR IGNORE`.
  `ORDER BY` clauses are modelled as a stable sort over scan order; SQLite
  leaves the relative order of equal sort keys unspecified, and the stable
  realization documents one concrete, deterministic choice.
-/

/-- Python whitespace class `\s` restricted to ASCII: space, tab, newline,
carriage return, vertical tab, form feed. -/
def isPySpace (c : Char) : Bool :=
  c == ' ' || c == '\t' || c == '\n' || c == '\r' ||
  c == Char.ofNat 11 || c == Char.ofNat 12

/-- Python `str.strip()` on a list of characters: drop ASCII whitespace from
both ends. -/
def pyStripList (l : List Char) : List Char :=
  ((l.dropWhile isPySpace).reverse.dropWhile isPySpace).reverse

/-- Python `str.strip()` on a string. -/
def pyStrip (s : String) : String :=
  ⟨pyStripList s.data⟩

/-- Strict lexicographic comparison of character lists by code point: the
order SQLite's default BINARY collation gives to the UTF-8 encodings of the
two texts (UTF-8 byte order and code-point order agree). -/
def listCharLt : List Char → List Char → Bool
  | _, [] => false
  | [], _ :: _ => true
  | a :: as, b :: bs =>
    if a.toNat < b.toNat then true
    else if b.toNat < a.toNat then false
    else listCharLt as bs

/-- Strict text comparison, the order used by `ORDER BY` on TEXT columns. -/
def strLt (a b : String) : Bool :=
  listCharLt a.data b.data

/-- Stable insertion of `r` into a list: `r` is placed before the first
element `x` with `¬ lt x r`, so elements equal to `r` that were already in
the list (which came later in the original scan when used via `stableSort`)
stay after `r`. -/
def insertSorted {α : Type} (lt : α → α → Bool) (r : α) : List α → List α
  | [] => [r]
  | x :: xs => if lt x r then x :: insertSorted lt r xs else r :: x :: xs

/-- Stable sort by the strict comparator `lt`: a deterministic model of an
SQL `ORDER BY` over the scan order of the underlying table. -/
def stableSort {α : Type} (lt : α → α → Bool) (l : List α) : List α :=
  l.foldr (insertSorted lt) []

/-- One row of the source tabular export, as loaded by pandas.  Cells that
may be missing (NaN) are `Option`. -/
structure SourceRow where
  tweet_id : Option String
  full_text : Option String
  created_at : String
  original_user_id : Option String
  reply_to_id : Option String
  reply_to_user : Option String
deriving Repr, DecidableEq

/-- The reply test of `split_posts_replies`:
`(df['reply_to_id'].notna()) | (df['reply_to_user'].notna())`. -/
def isReplyRow (r : SourceRow) : Bool :=
  r.reply_to_id.isSome || r.reply_to_user.isSome

/-- `DataPreprocessor.split_posts_replies` (both revisions): the rows where
the reply test is false form the posts output, the rows where it is true
form the replies output. -/
def split_posts_replies (df : List SourceRow) : List SourceRow × List SourceRow :=
  (df.filter (fun r => !isReplyRow r), df.filter (fun r => isReplyRow r))

/-- Python regex `\w` over ASCII: letters, digits, underscore. -/
def isWordChar (c : Char) : Bool :=
  c.isAlphanum || c == '_'

/-- Scanner for the regex `@\w+` used with `re.findall` / `re.sub`: walks the
text left to right; at each `@` followed by a word character it consumes the
maximal word run as one mention (counted, removed), otherwise the character
is kept.  The flag records whether the scanner is inside a mention's word
run.  Returns the mention count and the text with mentions removed. -/
def scanM : Bool → List Char → Nat × List Char
  | _, [] => (0, [])
  | inM, c :: rest =>
    if inM && isWordChar c then
      scanM true rest
    else if c == '@' && (match rest with | r :: _ => isWordChar r | [] => false) then
      let p := scanM true rest
      (p.1 + 1, p.2)
    else
      let p := scanM false rest
      (p.1, c :: p.2)

/-- Mention count (`len(re.findall(mention_pattern, text))`) and the text
with mentions removed (`re.sub(mention_pattern, '', text)`). -/
def mentionScan (s : String) : Nat × String :=
  let p := scanM false s.data
  (p.1, ⟨p.2⟩)

/-- The alternatives of the enhanced URL pattern
`(https?:\/\/|www\.)\S+|bit\.ly\/\S+|t\.co\/\S+|goo\.gl\/\S+|tinyurl\.com\/\S+`,
already lowercased because the search is case-insensitive.  Each alternative
requires at least one following non-space character (`\S+`). -/
def urlPats : List (List Char) :=
  ["http://".data, "https://".data, "www.".data, "bit.ly/".data,
   "t.co/".data, "goo.gl/".data, "tinyurl.com/".data]

/-- Does one URL alternative match at the head of `l`: the literal pattern is
a prefix and is followed by at least one non-space character. -/
def patHitsAt (pat l : List Char) : Bool :=
  pat.isPrefixOf l &&
    (match l.drop pat.length with
     | [] => false
     | c :: _ => !isPySpace c)

/-- Does some URL alternative match at some position of `l` (`re.search`). -/
def hasUrlFrom : List Char → Bool
  | [] => false
  | c :: rest => urlPats.any (fun p => patHitsAt p (c :: rest)) || hasUrlFrom rest

/-- The enhanced URL check: `re.search(url_pattern, text, re.IGNORECASE)`
viewed as a Boolean, with the case-insensitivity modelled by lowercasing. -/
def hasUrl (s : String) : Bool :=
  hasUrlFrom (s.data.map Char.toLower)

/-- Outcome type of the external `langdetect.detect` call:
`langDetectException` models `LangDetectException` (caught by the inner
`try` of the predicate) and `otherError` models any other exception, which
escapes to the predicate's outer `try`. -/
inductive DetectErr where
  | langDetectException
  | otherError
deriving Repr, DecidableEq

/-- A concrete model of the external `emoji.EMOJI_DATA` character set
(symbol and emoji blocks), used to instantiate the `emojiP` parameter in
closed evaluations; ASCII characters are never emoji. -/
def emojiDataModel (c : Char) : Bool :=
  (0x1F000 ≤ c.toNat) || (0x2190 ≤ c.toNat && c.toNat ≤ 0x2BFF)

/-- A language detector that always reports English, modelling
`langdetect.detect` on unambiguous English input. -/
def detEnglish : String → Except DetectErr String :=
  fun _ => Except.ok "en"

/-- Body of `is_valid_root` (`ConversationExtractor.filter_conversations`)
and of `is_valid_tweet` in `src/preprocess/preprocess.py` (the two share
this body verbatim), without the outer `try`: the checks run in source
order — string type, URL pattern, mention count, minimum length after
mention removal, emoji-only, language — and an uncaught exception from
`detect` is the `Except.error` case.  `LangDetectException` is caught here
(inner `try`) and yields rejection. -/
def is_valid_rootE (emojiP : Char → Bool) (det : String → Except DetectErr String)
    (minLength : Nat) (text : Option String) : Except DetectErr Bool :=
  match text with
  | none => Except.ok false
  | some t =>
    if hasUrl t then Except.ok false
    else
      let ms := mentionScan t
      if 1 < ms.1 then Except.ok false
      else
        let clean := pyStrip ms.2
        if clean.length < minLength then Except.ok false
        else if (pyStrip ⟨clean.data.filter (fun c => !emojiP c)⟩).data.isEmpty then
          Except.ok false
        else
          match det clean with
          | Except.ok lang => Except.ok (lang == "en")
          | Except.error DetectErr.langDetectException => Except.ok false
          | Except.error DetectErr.otherError => Except.error DetectErr.otherError

/-- The full predicate `is_valid_root`: the outer `try/except` converts any
escaping exception into rejection. -/
def is_valid_root (emojiP : Char → Bool) (det : String → Except DetectErr String)
    (minLength : Nat) (text : Option String) : Bool :=
  match is_valid_rootE emojiP det minLength text with
  | Except.ok b => b
  | Except.error _ => false

namespace ResearchCase

/-- Try to match one alternative of the URL-removal pattern
`https?://\S+|www\.\S+` at the head of `l` (case-sensitive, as in the
source, which passes no flags to `re.sub`): the literal prefix followed by a
maximal nonempty run of non-space characters.  Returns the matched length. -/
def matchUrlPat (pat l : List Char) : Option Nat :=
  if pat.isPrefixOf l then
    let run := (l.drop pat.length).takeWhile (fun c => !isPySpace c)
    if run.isEmpty then none else some (pat.length + run.length)
  else none

/-- Leftmost alternative that matches at the head of `l`.  The alternatives
`http://` and `https://` can never both match at one position, so trying
them in sequence realizes the regex alternation faithfully. -/
def matchUrlAt (l : List Char) : Option Nat :=
  match matchUrlPat "http://".data l with
  | some n => some n
  | none =>
    match matchUrlPat "https://".data l with
    | some n => some n
    | none => matchUrlPat "www.".data l

/-- Fuel-driven scan of `re.sub(r'https?://\S+|www\.\S+', '', text)`: at
each position, either a match is consumed and removed, or the character is
kept and the scan advances by one.  Every step consumes at least one
character, so fuel equal to the input length never runs out. -/
def removeUrlsFuel : Nat → List Char → List Char
  | 0, _ => []
  | _ + 1, [] => []
  | f + 1, c :: rest =>
    match matchUrlAt (c :: rest) with
    | some n => removeUrlsFuel f (rest.drop (n - 1))
    | none => c :: removeUrlsFuel f rest

/-- The URL-removal substitution on a character list. -/
def removeUrlsFrom (l : List Char) : List Char :=
  removeUrlsFuel l.length l

mutual

/-- State of the `^(@\S+\s*)+$` recognizer just after an `@`: at least one
non-space character must follow. -/
def mAfterAt : List Char → Bool
  | [] => false
  | c :: rest => !isPySpace c && mBody rest

/-- State inside a mention token (at least one character after the `@`
already consumed): the token extends over non-space characters; whitespace
moves to the inter-token state; the end of input accepts. -/
def mBody : List Char → Bool
  | [] => true
  | c :: rest => if isPySpace c then mSpace rest else mBody rest

/-- State in the `\s*` run between tokens: more whitespace stays here, the
end of input accepts, and anything else must start a new `@` token. -/
def mSpace : List Char → Bool
  | [] => true
  | c :: rest => if isPySpace c then mSpace rest else (c == '@' && mAfterAt rest)

end

/-- Recognizer for `re.match(r'^(@\S+\s*)+$', s)`: the anchored repetition
of `@` + nonempty non-space run + optional whitespace. -/
def mentionsOnlyMatch (l : List Char) : Bool :=
  match l with
  | [] => false
  | c :: rest => c == '@' && mAfterAt rest

/-- The earlier filter revision
`DataPreprocessor.filter_tweets.is_valid_tweet` in
`src/research_case/processors/preprocess.py`: URLs are removed (not grounds
for rejection), then the text must be nonempty, long enough, not emoji-only
and not composed only of mentions.  There is no language check in this
revision.  `none` models a non-string (NaN) `full_text` cell. -/
def is_valid_tweet (emojiP : Char → Bool) (minLength : Nat)
    (text : Option String) : Bool :=
  match text with
  | none => false
  | some t =>
    let t2 := pyStrip ⟨removeUrlsFrom t.data⟩
    if t2.data.isEmpty then false
    else if t2.length < minLength then false
    else if (pyStrip ⟨t2.data.filter (fun c => !emojiP c)⟩).data.isEmpty then false
    else if mentionsOnlyMatch (pyStrip t2).data then false
    else true

end ResearchCase


/-- A pandas cell of the `tweet_id` / `reply_to_id` columns after
`pd.read_csv`: either missing (NaN) or a numeric value.  The numeric case
carries the exact integer held by the cell; ids are assumed to be within
the exactly representable range of float64 (below 2^53), which is where the
formatting step of the source operates losslessly. -/
inductive PdCell where
  | na
  | num (n : Nat)
deriving Repr, DecidableEq

/-- Decimal representation of a natural number, the result of the
normalization `f-string` format `.0f` applied to an exactly integral
float64 value. -/
def decRepr (n : Nat) : String :=
  if n = 0 then "0" else ⟨(Nat.digits 10 n).reverse.map Nat.digitChar⟩

/-- The id normalization of `_process_chunk`:
`lambda x: f-string x .0f if pd.notna(x) else None`. -/
def normalizeId : PdCell → Option String
  | PdCell.na => none
  | PdCell.num n => some (decRepr n)

/-- Split a character list at the occurrences of `.` (the behavior of
`str.split` on the separator for this restricted use). -/
def splitDot : List Char → List (List Char)
  | [] => [[]]
  | c :: rest =>
    if c == '.' then [] :: splitDot rest
    else
      match splitDot rest with
      | [] => [[c]]
      | p :: ps => (c :: p) :: ps

/-- Value of a nonempty all-digit character list, read in base 10; `none`
when the list is empty or holds a non-digit. -/
def digitsVal (l : List Char) : Option Nat :=
  if l.isEmpty then none
  else
    l.foldl (fun acc c =>
      match acc with
      | none => none
      | some v => if c.isDigit then some (v * 10 + (c.toNat - 48)) else none)
      (some 0)

/-- Model of the pandas CSV numeric parse for an id cell, restricted to
integral forms: a digit string parses to its value, a digit string with a
fractional part of zeros (the float64 artifact, e.g. `123.0`) parses to its
integer part, and anything else is out of the model's scope (`na`). -/
def parseCell (s : String) : PdCell :=
  match splitDot s.data with
  | [ip] =>
    match digitsVal ip with
    | some n => PdCell.num n
    | none => PdCell.na
  | [ip, fp] =>
    if !fp.isEmpty && fp.all (fun c => c == '0') then
      match digitsVal ip with
      | some n => PdCell.num n
      | none => PdCell.na
    else PdCell.na
  | _ => PdCell.na

/-- One row of the SQLite `conversation_map` table, after the id
normalization of `_process_chunk`.  Nullable columns are `Option`. -/
structure ReplyRow where
  tweet_id : String
  reply_to_id : Option String
  created_at : String
  full_text : Option String
  original_user_id : Option String
deriving Repr, DecidableEq

/-- Does the table already hold a row with primary key `k`. -/
def hasKey (t : List ReplyRow) (k : String) : Bool :=
  t.any (fun r => r.tweet_id == k)

/-- One `INSERT OR IGNORE INTO conversation_map VALUES (...)`: a row whose
`tweet_id` is already present leaves the table unchanged, otherwise the row
is appended (rowid order = insertion order). -/
def insertOrIgnore (t : List ReplyRow) (r : ReplyRow) : List ReplyRow :=
  if hasKey t r.tweet_id then t else t ++ [r]

/-- The `executemany` of `_process_chunk`: insert the chunk's rows in
order, each with OR IGNORE semantics. -/
def insert_batch (t : List ReplyRow) (rs : List ReplyRow) : List ReplyRow :=
  rs.foldl insertOrIgnore t

/-- All rows whose `reply_to_id` is `k`, in table (rowid) order: the group
belonging to `GROUP BY reply_to_id`. -/
def replies_to (t : List ReplyRow) (k : String) : List ReplyRow :=
  t.filter (fun r => r.reply_to_id == some k)

/-- The distinct non-null `reply_to_id` values in first-occurrence order:
the group keys produced by the aggregation scan. -/
def targetsOf (t : List ReplyRow) : List String :=
  t.foldl (fun acc r =>
    match r.reply_to_id with
    | none => acc
    | some k => if acc.contains k then acc else acc ++ [k]) []

/-- The `conversation_sizes` CTE without its HAVING clause: every group key
paired with the `GROUP_CONCAT` list of its members' tweet ids (scan
order). -/
def conversation_sizes (t : List ReplyRow) : List (String × List String) :=
  (targetsOf t).map (fun k => (k, (replies_to t k).map (fun r => r.tweet_id)))

/-- The full candidate-thread query: groups with
`HAVING COUNT(*) >= min_conversation_size`, ordered by reply count
descending (`ORDER BY reply_count DESC`, modelled as a stable sort over the
group scan order). -/
def threads_with_min_size (t : List ReplyRow) (n : Nat) : List (String × List String) :=
  stableSort (fun a b => b.2.length < a.2.length)
    ((conversation_sizes t).filter (fun p => n ≤ p.2.length))

/-- The comparator of the member query's `ORDER BY created_at`: a strict
text comparison of the `created_at` column only — the `tweet_id` column is
not part of the sort key.  SQLite does not specify the relative order of
rows with equal `created_at`; the stable sort below realizes scan (rowid)
order for such ties. -/
def createdLt (a b : ReplyRow) : Bool :=
  strLt a.created_at b.created_at

/-- Member retrieval of one candidate thread: the rows of the `IN` list in
table scan order, stable-sorted by `created_at`. -/
def fetch_members (t : List ReplyRow) (rootId : String) (memberIds : List String) :
    List ReplyRow :=
  stableSort createdLt
    (t.filter (fun r => (rootId :: memberIds).contains r.tweet_id))

/-- The `conversation_stats` dictionary of `ConversationExtractor`.  The
initial Python value `float('inf')` of `min_conversation_length` is the
`none` case; the two ratio fields, Python floats computed by exact
divisions of counters, are modelled as rationals. -/
structure ConvStats where
  total_conversations : Nat
  meaningful_conversations : Nat
  total_tweets_processed : Nat
  max_conversation_length : Nat
  min_conversation_length : Option Nat
  avg_conversation_length : ℚ
  total_conversations_before_filter : Nat
  conversations_after_filter : Nat
  filter_retention_rate : ℚ
deriving Repr, DecidableEq

/-- The `_init_stats` dictionary. -/
def init_stats : ConvStats :=
  { total_conversations := 0
    meaningful_conversations := 0
    total_tweets_processed := 0
    max_conversation_length := 0
    min_conversation_length := none
    avg_conversation_length := 0
    total_conversations_before_filter := 0
    conversations_after_filter := 0
    filter_retention_rate := 0 }

/-- `ConversationExtractor._update_stats`. -/
def update_stats (minSize : Nat) (s : ConvStats) (convSize : Nat) : ConvStats :=
  { s with
    total_conversations := s.total_conversations + 1
    meaningful_conversations :=
      if minSize ≤ convSize then s.meaningful_conversations + 1
      else s.meaningful_conversations
    max_conversation_length := max s.max_conversation_length convSize
    min_conversation_length :=
      some (match s.min_conversation_length with
            | none => convSize
            | some m => min m convSize)
    total_tweets_processed := s.total_tweets_processed + convSize }

/-- `ConversationExtractor.get_conversation_stats`: the average is computed
here, at read time, and only when at least one meaningful conversation has
been recorded; otherwise the stats are returned unchanged and no division
is performed. -/
def get_conversation_stats (s : ConvStats) : ConvStats :=
  if 0 < s.meaningful_conversations then
    { s with avg_conversation_length :=
        (s.total_tweets_processed : ℚ) / (s.meaningful_conversations : ℚ) }
  else s

/-- `ConversationExtractor._update_filtered_stats`. -/
def update_filtered_stats (s : ConvStats) (total kept : Nat) : ConvStats :=
  { s with
    total_conversations_before_filter := total
    conversations_after_filter := kept
    filter_retention_rate :=
      if 0 < total then (kept : ℚ) / (total : ℚ) * 100 else 0 }

/-- One iteration of the thread-assembly loop of `extract_conversations`:
fetch the members, and only when `len(messages) >= min_conversation_size`
record the thread and update the stats. -/
def extract_step (t : List ReplyRow) (minSize : Nat)
    (acc : List (String × List ReplyRow) × ConvStats) (p : String × List String) :
    List (String × List ReplyRow) × ConvStats :=
  let msgs := fetch_members t p.1 p.2
  if minSize ≤ msgs.length then
    (acc.1 ++ [(p.1, msgs)], update_stats minSize acc.2 msgs.length)
  else acc

/-- `ConversationExtractor.filter_conversations`: keep a thread iff it is
nonempty and its first message's `full_text` passes `is_valid_root` (with
the default `min_length = 25` supplied by the caller). -/
def filter_conversations (emojiP : Char → Bool)
    (det : String → Except DetectErr String) (minLength : Nat)
    (convs : List (String × List ReplyRow)) : List (String × List ReplyRow) :=
  convs.filter (fun p =>
    match p.2 with
    | [] => false
    | m :: _ => is_valid_root emojiP det minLength m.full_text)

/-- The assembly loop of `ConversationExtractor.extract_conversations` over
an already loaded `conversation_map` table: walk the candidate threads,
assemble each one's members and update the running stats, starting from an
empty mapping and `_init_stats`. -/
def extract_raw (t : List ReplyRow) (minSize : Nat) :
    List (String × List ReplyRow) × ConvStats :=
  (threads_with_min_size t minSize).foldl (extract_step t minSize) ([], init_stats)

/-- The retained threads and final stats of `extract_conversations`: the
assembly loop above followed by the root filter (default minimum root
length 25) and the `_update_filtered_stats` call. -/
def extract_conversations (emojiP : Char → Bool)
    (det : String → Except DetectErr String) (t : List ReplyRow) (minSize : Nat) :
    List (String × List ReplyRow) × ConvStats :=
  (filter_conversations emojiP det 25 (extract_raw t minSize).1,
   update_filtered_stats (extract_raw t minSize).2 (extract_raw t minSize).1.length
     (filter_conversations emojiP det 25 (extract_raw t minSize).1).length)

/-- A post row of the worked examples: no reply target at all. -/
def srPost : SourceRow :=
  ⟨some "1", some "Hello world this is long enough", "2021-01-01", some "A", none, none⟩

/-- A reply row of the worked examples: a reply target id is present. -/
def srReply : SourceRow :=
  ⟨some "2", some "yes indeed totally agree with you", "2021-01-02", some "B", some "1", none⟩

/-- Reply to thread root `9`, id `2`, inserted first. -/
def r2a : ReplyRow :=
  ⟨"2", some "9", "2021-01-01", some "this is a reasonably long english sentence for testing", some "u1"⟩

/-- Reply to thread root `9`, id `1`, same `created_at` as `r2a`, inserted
second. -/
def r2b : ReplyRow :=
  ⟨"1", some "9", "2021-01-01", some "another suitably long english sentence for the test", some "u2"⟩

/-- A two-row table whose single thread has two members with equal
`created_at` and ids in descending insertion order. -/
def tbl2 : List ReplyRow := insert_batch [] [r2a, r2b]

/-- The ordering the claim asserts for emitted members: adjacent pairs
non-decreasing in the key `(created_at, tweet_id)`. -/
def sortedByCreatedAtId : List ReplyRow → Bool
  | [] => true
  | [_] => true
  | a :: b :: rest =>
    (strLt a.created_at b.created_at ||
      (a.created_at == b.created_at && !(strLt b.tweet_id a.tweet_id))) &&
    sortedByCreatedAtId (b :: rest)

/-- The thread root `9`, itself stored as a reply (to `100`), with the
latest `created_at` of its thread. -/
def r5a : ReplyRow :=
  ⟨"9", some "100", "2021-05-01", some "the root text which is itself long enough to pass", some "u0"⟩

/-- First reply to root `9`, earliest `created_at`. -/
def r5b : ReplyRow :=
  ⟨"1", some "9", "2021-01-01", some "this is a reasonably long english sentence for testing", some "u1"⟩

/-- Second reply to root `9`. -/
def r5c : ReplyRow :=
  ⟨"2", some "9", "2021-02-01", some "another suitably long english sentence for the test", some "u2"⟩

/-- A table whose single emitted thread has its root's own record present
but chronologically last. -/
def tbl5 : List ReplyRow := insert_batch [] [r5a, r5b, r5c]

/-- The property the claim asserts of an emitted thread: whenever the
root's own record exists in the store, the first member is the root. -/
def rootFirstWhenPresent (t : List ReplyRow) (p : String × List ReplyRow) : Bool :=
  match t.find? (fun r => r.tweet_id == p.1) with
  | none => true
  | some _ =>
    match p.2 with
    | [] => false
    | m :: _ => m.tweet_id == p.1

theorem listCharLt_asymm :
    ∀ la lb : List Char, listCharLt la lb = true → listCharLt lb la = false := by
  intro la
  induction la with
  | nil =>
      intro lb h
      cases lb with
      | nil => simp [listCharLt] at h
      | cons b bs => rfl
  | cons a as ih =>
      intro lb h
      cases lb with
      | nil => simp [listCharLt] at h
      | cons b bs =>
          simp only [listCharLt] at h ⊢
          by_cases h1 : a.toNat < b.toNat
          · simp only [if_pos h1]
            have h2 : ¬ b.toNat < a.toNat := by omega
            simp [h1, h2]
          · by_cases h2 : b.toNat < a.toNat
            · simp [h1, h2] at h
            · simp only [if_neg h1, if_neg h2] at h ⊢
              exact ih bs h

theorem listCharLt_le_trans :
    ∀ la lb lc : List Char, listCharLt lb la = false → listCharLt lc lb = false →
      listCharLt lc la = false := by
  intro la
  induction la with
  | nil =>
      intro lb lc h1 h2
      cases lc with
      | nil => rfl
      | cons c cs => rfl
  | cons a as ih =>
      intro lb lc h1 h2
      cases lb with
      | nil => simp [listCharLt] at h1
      | cons b bs =>
          cases lc with
          | nil => simp [listCharLt] at h2
          | cons c cs =>
              simp only [listCharLt] at h1 h2 ⊢
              by_cases hba : b.toNat < a.toNat
              · simp [hba] at h1
              · by_cases hcb : c.toNat < b.toNat
                · simp [hcb] at h2
                · by_cases hca : c.toNat < a.toNat
                  · omega
                  · simp only [if_neg hca]
                    by_cases hac : a.toNat < c.toNat
                    · simp [hac]
                    · simp only [if_neg hac]
                      have hab : a.toNat = b.toNat := by omega
                      have hbc : b.toNat = c.toNat := by omega
                      simp only [if_neg hba] at h1
                      simp only [if_neg hcb] at h2
                      have hab' : ¬ a.toNat < b.toNat := by omega
                      have hbc' : ¬ b.toNat < c.toNat := by omega
                      simp only [if_neg hab'] at h1
                      simp only [if_neg hbc'] at h2
                      exact ih bs cs h1 h2

theorem mem_insertSorted {α : Type} (lt : α → α → Bool) (r a : α) :
    ∀ l : List α, a ∈ insertSorted lt r l ↔ a = r ∨ a ∈ l := by
  intro l
  induction l with
  | nil => simp [insertSorted]
  | cons x xs ih =>
      by_cases h : lt x r = true
      · simp only [insertSorted, h, if_true, List.mem_cons, ih]
        try tauto
      · simp only [insertSorted, h, Bool.false_eq_true, if_false, List.mem_cons]
        try tauto

theorem mem_stableSort {α : Type} (lt : α → α → Bool) (a : α) :
    ∀ l : List α, a ∈ stableSort lt l ↔ a ∈ l := by
  intro l
  induction l with
  | nil => simp [stableSort]
  | cons x xs ih =>
      simp only [stableSort, List.foldr] at ih ⊢
      rw [mem_insertSorted, ih, List.mem_cons]

theorem length_filter_add_length_filter_not {α : Type} (p : α → Bool) :
    ∀ l : List α,
      (l.filter (fun a => !p a)).length + (l.filter p).length = l.length := by
  intro l
  induction l with
  | nil => rfl
  | cons x xs ih =>
      by_cases h : p x = true
      · simp [List.filter, h, ← ih]
        omega
      · simp [List.filter, h, ← ih]
        omega

theorem digitChar_inj_on :
    ∀ a : Nat, a < 10 → ∀ b : Nat, b < 10 → Nat.digitChar a = Nat.digitChar b → a = b := by
  decide

theorem map_digitChar_inj :
    ∀ l1 l2 : List Nat, (∀ d ∈ l1, d < 10) → (∀ d ∈ l2, d < 10) →
      l1.map Nat.digitChar = l2.map Nat.digitChar → l1 = l2 := by
  intro l1
  induction l1 with
  | nil =>
      intro l2 _ _ h
      cases l2 with
      | nil => rfl
      | cons b bs => simp at h
  | cons a as ih =>
      intro l2 h1 h2 h
      cases l2 with
      | nil => simp at h
      | cons b bs =>
          simp only [List.map_cons, List.cons.injEq] at h
          have ha : a < 10 := h1 a (List.mem_cons_self a as)
          have hb : b < 10 := h2 b (List.mem_cons_self b bs)
          have hab := digitChar_inj_on a ha b hb h.1
          have hrest := ih bs (fun d hd => h1 d (List.mem_cons_of_mem a hd))
            (fun d hd => h2 d (List.mem_cons_of_mem b hd)) h.2
          rw [hab, hrest]

theorem decRepr_inj : ∀ m n : Nat, decRepr m = decRepr n → m = n := by
  have key : ∀ n : Nat, n ≠ 0 →
      ((Nat.digits 10 n).reverse.map Nat.digitChar ≠ ['0']) := by
    intro n hn h
    have h10 : (1 : Nat) < 10 := by norm_num
    have hd : (Nat.digits 10 n).reverse = [0] := by
      have hb : ∀ d ∈ (Nat.digits 10 n).reverse, d < 10 := by
        intro d hd
        exact Nat.digits_lt_base h10 (List.mem_reverse.mp hd)
      have h0 : ∀ d ∈ [(0 : Nat)], d < 10 := by
        intro d hd
        simp at hd
        omega
      have := map_digitChar_inj (Nat.digits 10 n).reverse [0] hb h0
      simp only [List.map_cons, List.map_nil] at this
      exact this h
    have hdig : Nat.digits 10 n = [0] := by
      have := congrArg List.reverse hd
      simpa using this
    have := Nat.ofDigits_digits 10 n
    rw [hdig] at this
    simp [Nat.ofDigits] at this
    omega
  intro m n h
  by_cases hm : m = 0 <;> by_cases hn : n = 0
  · omega
  · exfalso
    apply key n hn
    have : decRepr n = "0" := by rw [← h, decRepr, if_pos hm]
    rw [decRepr, if_neg hn] at this
    have := congrArg String.data this
    simpa using this
  · exfalso
    apply key m hm
    have : decRepr m = "0" := by rw [h, decRepr, if_pos hn]
    rw [decRepr, if_neg hm] at this
    have := congrArg String.data this
    simpa using this
  · rw [decRepr, if_neg hm, decRepr, if_neg hn] at h
    have hdata := congrArg String.data h
    simp only at hdata
    have h10 : (1 : Nat) < 10 := by norm_num
    have hbm : ∀ d ∈ (Nat.digits 10 m).reverse, d < 10 := by
      intro d hd
      exact Nat.digits_lt_base h10 (List.mem_reverse.mp hd)
    have hbn : ∀ d ∈ (Nat.digits 10 n).reverse, d < 10 := by
      intro d hd
      exact Nat.digits_lt_base h10 (List.mem_reverse.mp hd)
    have hrev := map_digitChar_inj _ _ hbm hbn hdata
    have hdig : Nat.digits 10 m = Nat.digits 10 n := by
      have := congrArg List.reverse hrev
      simpa using this
    exact Nat.digits_inj_iff.mp hdig

theorem pairwise_insertSorted_created (r : ReplyRow) :
    ∀ l : List ReplyRow,
      l.Pairwise (fun a b => strLt b.created_at a.created_at = false) →
      (insertSorted createdLt r l).Pairwise
        (fun a b => strLt b.created_at a.created_at = false) := by
  intro l
  induction l with
  | nil =>
      intro _
      simp [insertSorted]
  | cons x xs ih =>
      intro h
      rw [List.pairwise_cons] at h
      by_cases hc : createdLt x r = true
      · simp only [insertSorted, hc, if_true]
        rw [List.pairwise_cons]
        refine ⟨?_, ih h.2⟩
        intro y hy
        rw [mem_insertSorted] at hy
        rcases hy with rfl | hy
        · exact listCharLt_asymm _ _ hc
        · exact h.1 y hy
      · have hc' : createdLt x r = false := eq_false_of_ne_true hc
        simp only [insertSorted, hc, Bool.false_eq_true, if_false]
        rw [List.pairwise_cons]
        refine ⟨?_, List.pairwise_cons.mpr h⟩
        intro y hy
        rcases List.mem_cons.mp hy with rfl | hy
        · exact hc'
        · exact listCharLt_le_trans _ _ _ hc' (h.1 y hy)

theorem pairwise_stableSort_created :
    ∀ l : List ReplyRow,
      (stableSort createdLt l).Pairwise
        (fun a b => strLt b.created_at a.created_at = false) := by
  intro l
  induction l with
  | nil => simp [stableSort]
  | cons x xs ih =>
      have h : stableSort createdLt (x :: xs) =
          insertSorted createdLt x (stableSort createdLt xs) := rfl
      rw [h]
      exact pairwise_insertSorted_created x _ ih

theorem pairwise_fetch_members (t : List ReplyRow) (rootId : String)
    (memberIds : List String) :
    (fetch_members t rootId memberIds).Pairwise
      (fun a b => strLt b.created_at a.created_at = false) := by
  exact pairwise_stableSort_created _

theorem extract_fold_min_size (t : List ReplyRow) (minSize : Nat) :
    ∀ (pot : List (String × List String))
      (acc : List (String × List ReplyRow) × ConvStats),
      (∀ p ∈ acc.1, minSize ≤ p.2.length) →
      ∀ p ∈ (pot.foldl (extract_step t minSize) acc).1, minSize ≤ p.2.length := by
  intro pot
  induction pot with
  | nil =>
      intro acc hacc p hp
      exact hacc p hp
  | cons q qs ih =>
      intro acc hacc p hp
      refine ih (extract_step t minSize acc q) ?_ p hp
      intro p' hp'
      unfold extract_step at hp'
      by_cases hlen : minSize ≤ (fetch_members t q.1 q.2).length
      · simp only [hlen, if_true] at hp'
        rcases List.mem_append.mp hp' with h1 | h1
        · exact hacc p' h1
        · rcases List.mem_singleton.mp h1 with rfl
          exact hlen
      · simp only [hlen, if_false] at hp'
        exact hacc p' hp'

theorem extract_fold_sorted (t : List ReplyRow) (minSize : Nat) :
    ∀ (pot : List (String × List String))
      (acc : List (String × List ReplyRow) × ConvStats),
      (∀ p ∈ acc.1, p.2.Pairwise (fun a b => strLt b.created_at a.created_at = false)) →
      ∀ p ∈ (pot.foldl (extract_step t minSize) acc).1,
        p.2.Pairwise (fun a b => strLt b.created_at a.created_at = false) := by
  intro pot
  induction pot with
  | nil =>
      intro acc hacc p hp
      exact hacc p hp
  | cons q qs ih =>
      intro acc hacc p hp
      refine ih (extract_step t minSize acc q) ?_ p hp
      intro p' hp'
      unfold extract_step at hp'
      by_cases hlen : minSize ≤ (fetch_members t q.1 q.2).length
      · simp only [hlen, if_true] at hp'
        rcases List.mem_append.mp hp' with h1 | h1
        · exact hacc p' h1
        · rcases List.mem_singleton.mp h1 with rfl
          exact pairwise_fetch_members t q.1 q.2
      · simp only [hlen, if_false] at hp'
        exact hacc p' hp'

theorem extract_fold_root_member (t : List ReplyRow) (minSize : Nat) :
    ∀ (pot : List (String × List String))
      (acc : List (String × List ReplyRow) × ConvStats),
      (∀ p ∈ acc.1, ∀ r ∈ t, r.tweet_id = p.1 → r ∈ p.2) →
      ∀ p ∈ (pot.foldl (extract_step t minSize) acc).1,
        ∀ r ∈ t, r.tweet_id = p.1 → r ∈ p.2 := by
  intro pot
  induction pot with
  | nil =>
      intro acc hacc p hp
      exact hacc p hp
  | cons q qs ih =>
      intro acc hacc p hp
      refine ih (extract_step t minSize acc q) ?_ p hp
      intro p' hp'
      unfold extract_step at hp'
      by_cases hlen : minSize ≤ (fetch_members t q.1 q.2).length
      · simp only [hlen, if_true] at hp'
        rcases List.mem_append.mp hp' with h1 | h1
        · exact hacc p' h1
        · rcases List.mem_singleton.mp h1 with rfl
          intro r hr hid
          unfold fetch_members
          rw [mem_stableSort]
          rw [List.mem_filter]
          refine ⟨hr, ?_⟩
          simp only [List.contains_cons]
          rw [hid]
          simp
      · simp only [hlen, if_false] at hp'
        exact hacc p' hp'

theorem extract_fold_lockstep (t : List ReplyRow) (minSize : Nat) :
    ∀ (pot : List (String × List String))
      (acc : List (String × List ReplyRow) × ConvStats),
      acc.2.total_conversations = acc.2.meaningful_conversations →
      ((pot.foldl (extract_step t minSize) acc).2).total_conversations =
        ((pot.foldl (extract_step t minSize) acc).2).meaningful_conversations := by
  intro pot
  induction pot with
  | nil =>
      intro acc hacc
      exact hacc
  | cons q qs ih =>
      intro acc hacc
      refine ih (extract_step t minSize acc q) ?_
      unfold extract_step
      by_cases hlen : minSize ≤ (fetch_members t q.1 q.2).length
      · simp only [hlen, if_true]
        simp [update_stats, hacc, hlen]
      · simp only [hlen, if_false]
        exact hacc

theorem mem_filter_conversations (emojiP : Char → Bool)
    (det : String → Except DetectErr String) (minLength : Nat)
    (convs : List (String × List ReplyRow)) (p : String × List ReplyRow) :
    p ∈ filter_conversations emojiP det minLength convs → p ∈ convs := by
  intro hp
  exact (List.mem_filter.mp hp).1

theorem hasKey_insertOrIgnore_self (t : List ReplyRow) (r : ReplyRow) :
    hasKey (insertOrIgnore t r) r.tweet_id = true := by
  unfold insertOrIgnore
  by_cases h : hasKey t r.tweet_id = true
  · simp [h]
  · simp only [h, Bool.false_eq_true, if_false]
    unfold hasKey
    rw [List.any_append]
    simp

theorem hasKey_mono_insertOrIgnore (t : List ReplyRow) (s : ReplyRow) (k : String)
    (h : hasKey t k = true) : hasKey (insertOrIgnore t s) k = true := by
  unfold insertOrIgnore
  by_cases hs : hasKey t s.tweet_id = true
  · simp only [hs, if_true]
    exact h
  · simp only [hs, Bool.false_eq_true, if_false]
    unfold hasKey at h ⊢
    rw [List.any_append]
    simp [h]

theorem hasKey_insert_batch (k : String) :
    ∀ (rs : List ReplyRow) (t : List ReplyRow),
      hasKey t k = true → hasKey (insert_batch t rs) k = true := by
  intro rs
  induction rs with
  | nil =>
      intro t h
      exact h
  | cons s ss ih =>
      intro t h
      exact ih (insertOrIgnore t s) (hasKey_mono_insertOrIgnore t s k h)

theorem insertOrIgnore_eq_of_hasKey (t : List ReplyRow) (r : ReplyRow)
    (h : hasKey t r.tweet_id = true) : insertOrIgnore t r = t := by
  unfold insertOrIgnore
  simp [h]

theorem insert_batch_append (t : List ReplyRow) (l1 l2 : List ReplyRow) :
    insert_batch t (l1 ++ l2) = insert_batch (insert_batch t l1) l2 := by
  unfold insert_batch
  exact List.foldl_append _ _ _ _

theorem isReplyRow_iff (r : SourceRow) :
    isReplyRow r = true ↔ (r.reply_to_id ≠ none ∨ r.reply_to_user ≠ none) := by
  simp [isReplyRow, Option.isSome_iff_ne_none]

theorem isReplyRow_false_iff (r : SourceRow) :
    (!isReplyRow r) = true ↔ (r.reply_to_id = none ∧ r.reply_to_user = none) := by
  simp [isReplyRow, Option.isSome_iff_ne_none]
  try tauto

/-- C1: for every input batch, partitioning is complete and exclusive: the
post count plus the reply count equals the input row count; a row goes to
replies iff `reply_to_id` is non-null OR `reply_to_user` is non-null, and
to posts iff both are null. -/
theorem c1_partition_complete_exclusive (df : List SourceRow) :
    (split_posts_replies df).1.length + (split_posts_replies df).2.length = df.length ∧
    ∀ r : SourceRow,
      (r ∈ (split_posts_replies df).2 ↔
        r ∈ df ∧ (r.reply_to_id ≠ none ∨ r.reply_to_user ≠ none)) ∧
      (r ∈ (split_posts_replies df).1 ↔
        r ∈ df ∧ (r.reply_to_id = none ∧ r.reply_to_user = none)) := by
  refine ⟨length_filter_add_length_filter_not isReplyRow df, ?_⟩
  intro r
  constructor
  · rw [show (split_posts_replies df).2 = df.filter (fun r => isReplyRow r) from rfl]
    rw [List.mem_filter]
    exact and_congr_right (fun _ => isReplyRow_iff r)
  · rw [show (split_posts_replies df).1 = df.filter (fun r => !isReplyRow r) from rfl]
    rw [List.mem_filter]
    exact and_congr_right (fun _ => isReplyRow_false_iff r)

/-- C1 witness: the two-row worked example splits into one post and one
reply. -/
theorem c1_witness :
    (split_posts_replies [srPost, srReply]).1.length +
      (split_posts_replies [srPost, srReply]).2.length = 2 :=
  (c1_partition_complete_exclusive [srPost, srReply]).1

/-- C2 counterexample: on `tbl2` the single emitted thread has two members
with equal `created_at` whose ids appear in descending order (`"2"` before
`"1"`), so the member sequence is not sorted by the key
`(created_at, id)` — the code's `ORDER BY created_at` has no id
tie-break. -/
theorem c2_counterexample :
    ((extract_conversations emojiDataModel detEnglish tbl2 2).1.all
      (fun p => sortedByCreatedAtId p.2)) = false := by
  decide

/-- C2 (amended): every emitted member sequence is sorted by `created_at`
ascending (`strLt b.created_at a.created_at = false` states
`a.created_at ≤ b.created_at` in the TEXT order); the id is not part of the
sort key, and members with equal `created_at` keep the scan order of the
store. -/
theorem c2_members_chronological (emojiP : Char → Bool)
    (det : String → Except DetectErr String) (t : List ReplyRow) (minSize : Nat)
    (rootId : String) (msgs : List ReplyRow)
    (h : (rootId, msgs) ∈ (extract_conversations emojiP det t minSize).1) :
    msgs.Pairwise (fun a b => strLt b.created_at a.created_at = false) := by
  have h1 : (rootId, msgs) ∈ (extract_raw t minSize).1 :=
    mem_filter_conversations emojiP det 25 (extract_raw t minSize).1 (rootId, msgs) h
  exact extract_fold_sorted t minSize (threads_with_min_size t minSize)
    ([], init_stats) (fun p hp => absurd hp (List.not_mem_nil p)) (rootId, msgs) h1

/-- C2 witness: the members of the thread emitted from `tbl2` are
chronologically ordered. -/
theorem c2_witness :
    ([r2a, r2b] : List ReplyRow).Pairwise
      (fun a b => strLt b.created_at a.created_at = false) :=
  c2_members_chronological emojiDataModel detEnglish tbl2 2 "9" [r2a, r2b] (by decide)

/-- C3: every thread in the mapping returned by `extract_conversations` has
at least `min_conversation_size` member messages. -/
theorem c3_thread_min_size (emojiP : Char → Bool)
    (det : String → Except DetectErr String) (t : List ReplyRow) (minSize : Nat)
    (rootId : String) (msgs : List ReplyRow)
    (h : (rootId, msgs) ∈ (extract_conversations emojiP det t minSize).1) :
    minSize ≤ msgs.length := by
  have h1 : (rootId, msgs) ∈ (extract_raw t minSize).1 :=
    mem_filter_conversations emojiP det 25 (extract_raw t minSize).1 (rootId, msgs) h
  exact extract_fold_min_size t minSize (threads_with_min_size t minSize)
    ([], init_stats) (fun p hp => absurd hp (List.not_mem_nil p)) (rootId, msgs) h1

/-- C3 witness: the thread emitted from `tbl2` with `min_conversation_size
= 2` has at least two members. -/
theorem c3_witness : 2 ≤ ([r2a, r2b] : List ReplyRow).length :=
  c3_thread_min_size emojiDataModel detEnglish tbl2 2 "9" [r2a, r2b] (by decide)

/-- C4: re-inserting a reply record whose id was already inserted by an
earlier `insert_batch` position is a no-op — the table is unchanged (so no
error and no duplicate row) and the `threads_with_min_size` output is
unchanged relative to inserting it once. -/
theorem c4_insert_idempotent (t pre mid post : List ReplyRow) (r : ReplyRow) (n : Nat) :
    insert_batch (insert_batch t (pre ++ r :: mid)) (r :: post) =
      insert_batch (insert_batch t (pre ++ r :: mid)) post ∧
    threads_with_min_size (insert_batch (insert_batch t (pre ++ r :: mid)) (r :: post)) n =
      threads_with_min_size (insert_batch (insert_batch t (pre ++ r :: mid)) post) n := by
  have hkey : hasKey (insert_batch t (pre ++ r :: mid)) r.tweet_id = true := by
    have hsplit : pre ++ r :: mid = (pre ++ [r]) ++ mid := by simp
    rw [hsplit, insert_batch_append]
    apply hasKey_insert_batch
    have h1 : insert_batch t (pre ++ [r]) = insertOrIgnore (insert_batch t pre) r := by
      rw [insert_batch_append]
      rfl
    rw [h1]
    exact hasKey_insertOrIgnore_self _ r
  have hmain : insert_batch (insert_batch t (pre ++ r :: mid)) (r :: post) =
      insert_batch (insert_batch t (pre ++ r :: mid)) post := by
    have h2 : insert_batch (insert_batch t (pre ++ r :: mid)) (r :: post) =
        insert_batch (insertOrIgnore (insert_batch t (pre ++ r :: mid)) r) post := rfl
    rw [h2, insertOrIgnore_eq_of_hasKey _ _ hkey]
  exact ⟨hmain, by rw [hmain]⟩

/-- C5 counterexample: on `tbl5` the root's own record (`tweet_id = "9"`)
is present in the store and appears among the emitted members, but last,
not first — members are placed by `created_at` order only.  (The record is
fetched from the replies store `conversation_map`; the posts table is never
consulted by `extract_conversations`.) -/
theorem c5_counterexample :
    ((extract_conversations emojiDataModel detEnglish tbl5 2).1.all
      (rootFirstWhenPresent tbl5)) = false := by
  decide

/-- C5 (amended): for every emitted thread, every stored row whose
`tweet_id` equals the thread's root id — in particular the root's own
record whenever the root appears in the replies store — is fetched and is
among the emitted members (its position is determined by `created_at`
order, not forced to be first). -/
theorem c5_root_record_member (emojiP : Char → Bool)
    (det : String → Except DetectErr String) (t : List ReplyRow) (minSize : Nat)
    (rootId : String) (msgs : List ReplyRow) (r : ReplyRow)
    (h : (rootId, msgs) ∈ (extract_conversations emojiP det t minSize).1)
    (hr : r ∈ t) (hid : r.tweet_id = rootId) : r ∈ msgs := by
  have h1 : (rootId, msgs) ∈ (extract_raw t minSize).1 :=
    mem_filter_conversations emojiP det 25 (extract_raw t minSize).1 (rootId, msgs) h
  exact extract_fold_root_member t minSize (threads_with_min_size t minSize)
    ([], init_stats) (fun p hp => absurd hp (List.not_mem_nil p)) (rootId, msgs) h1 r hr hid

/-- C5 witness: the root record `r5a` of `tbl5` is among the members of its
emitted thread. -/
theorem c5_witness : r5a ∈ ([r5b, r5c, r5a] : List ReplyRow) :=
  c5_root_record_member emojiDataModel detEnglish tbl5 2 "9" [r5b, r5c, r5a] r5a
    (by decide) (by decide) rfl

/-- C6 counterexample: the post filter of
`src/research_case/processors/preprocess.py` accepts a text containing the
URL-like substrings `http://` and the shortener domain `t.co` — that
revision strips URLs before its checks instead of rejecting on their
presence. -/
theorem c6_counterexample :
    ResearchCase.is_valid_tweet emojiDataModel 10
      (some "check this out http://t.co/abcd great stuff") = true := by
  decide

/-- C6 (amended): in the enhanced filters (`is_valid_root` and the
`filter_tweets` of `src/preprocess/preprocess.py`, which share this body),
any text matched by the URL pattern — `http://`, `https://` or `www.`
followed by a non-space character, or a shortener domain followed by `/`
and a non-space character, case-insensitively — is rejected regardless of
the remaining content and of the language/emoji oracles; the research_case
post filter instead strips URLs, and a bare shortener domain without a
path is not rejected anywhere. -/
theorem c6_url_match_rejected (emojiP : Char → Bool)
    (det : String → Except DetectErr String) (ml : Nat) (t : String)
    (h : hasUrl t = true) :
    is_valid_root emojiP det ml (some t) = false := by
  unfold is_valid_root is_valid_rootE
  simp [h]

/-- C6 witness: a text with a scheme-prefixed URL is rejected by the
enhanced filter. -/
theorem c6_witness :
    is_valid_root emojiDataModel detEnglish 25 (some "go to http://x right now") = false :=
  c6_url_match_rejected emojiDataModel detEnglish 25 "go to http://x right now" (by decide)

/-- C7: the quality predicate always returns a Boolean: any exception
escaping the sub-checks (the `Except.error` outcome of the checking body)
is converted by the outer catch to rejection, and in particular with a
language detector that fails — by `LangDetectException` or by any other
exception — the predicate returns `false` rather than propagating an
error. -/
theorem c7_predicate_total (emojiP : Char → Bool)
    (det : String → Except DetectErr String) (ml : Nat) (txt : Option String)
    (e : DetectErr) :
    (is_valid_rootE emojiP det ml txt = Except.error e →
      is_valid_root emojiP det ml txt = false) ∧
    is_valid_root emojiP (fun _ => Except.error e) ml txt = false := by
  constructor
  · intro h
    unfold is_valid_root
    rw [h]
  · unfold is_valid_root is_valid_rootE
    cases txt with
    | none => rfl
    | some t =>
        dsimp only
        split_ifs <;> try rfl
        cases e <;> rfl

/-- C7 witness: on a text passing every pre-check, a detector failing with
a non-`LangDetectException` error makes the checking body error, and the
predicate still returns `false`. -/
theorem c7_witness :
    is_valid_root emojiDataModel (fun _ => Except.error DetectErr.otherError) 25
      (some "this is a reasonably long english sentence for testing") = false :=
  (c7_predicate_total emojiDataModel (fun _ => Except.error DetectErr.otherError) 25
    (some "this is a reasonably long english sentence for testing")
    DetectErr.otherError).1 (by rfl)

/-- C8: id normalization is stable — any two source representations parsing
to the same numeric value normalize to the identical string key — and
injective: distinct values normalize to distinct keys, and rows keyed by
distinct strings are never placed in the same `ThreadIndex` group. -/
theorem c8_id_normalization :
    (∀ s1 s2 : String, ∀ v : Nat, parseCell s1 = PdCell.num v →
      parseCell s2 = PdCell.num v →
      normalizeId (parseCell s1) = normalizeId (parseCell s2)) ∧
    (∀ a b : Nat, normalizeId (PdCell.num a) = normalizeId (PdCell.num b) → a = b) ∧
    (∀ (t : List ReplyRow) (k1 k2 : String) (r : ReplyRow),
      k1 ≠ k2 → r ∈ replies_to t k1 → r ∉ replies_to t k2) := by
  refine ⟨?_, ?_, ?_⟩
  · intro s1 s2 v h1 h2
    rw [h1, h2]
  · intro a b h
    simp only [normalizeId, Option.some.injEq] at h
    exact decRepr_inj a b h
  · intro t k1 k2 r hne h1 h2
    have e1 : (r.reply_to_id == some k1) = true := (List.mem_filter.mp h1).2
    have e2 : (r.reply_to_id == some k2) = true := (List.mem_filter.mp h2).2
    have e1' : r.reply_to_id = some k1 := by simpa using e1
    have e2' : r.reply_to_id = some k2 := by simpa using e2
    rw [e1'] at e2'
    injection e2' with hk
    exact hne hk

/-- C8 witness: the string form `"123"` and the float artifact form
`"123.0"` normalize to the identical key. -/
theorem c8_witness : normalizeId (parseCell "123") = normalizeId (parseCell "123.0") :=
  c8_id_normalization.1 "123" "123.0" 123 (by decide) (by decide)

/-- C9: the stats snapshot is safe for every collector state — the
accumulation step never touches the average (it is computed at read time
only), and reading the snapshot with zero meaningful conversations
performs no division and returns the stats unchanged. -/
theorem c9_stats_snapshot (ms n : Nat) (s s0 : ConvStats) :
    (update_stats ms s n).avg_conversation_length = s.avg_conversation_length ∧
    (s0.meaningful_conversations = 0 → get_conversation_stats s0 = s0) := by
  constructor
  · rfl
  · intro h
    unfold get_conversation_stats
    rw [h]
    simp

/-- C9 witness: reading the snapshot of the initial stats (zero meaningful
conversations) returns them unchanged. -/
theorem c9_witness : get_conversation_stats init_stats = init_stats :=
  (c9_stats_snapshot 2 5 init_stats init_stats).2 rfl

/-- C10: after any run of `extract_conversations`, the stats counters
satisfy `total_conversations = meaningful_conversations`: the per-thread
update only runs for threads that already passed the minimum-size check,
so its internal size conditional always holds and the counters advance in
lockstep. -/
theorem c10_counters_lockstep (emojiP : Char → Bool)
    (det : String → Except DetectErr String) (t : List ReplyRow) (minSize : Nat) :
    ((extract_conversations emojiP det t minSize).2).total_conversations =
      ((extract_conversations emojiP det t minSize).2).meaningful_conversations := by
  exact extract_fold_lockstep t minSize (threads_with_min_size t minSize)
    ([], init_stats) rfl
